import Mathlib

set_option maxRecDepth 200000

/-!
Verification development for the In-N-Out location scraper
(src/scrape_innout_locations.py).

The Python source is shallowly embedded here.  Strings are modelled as
lists of characters (`Str`), regular-expression searches as the explicit
leftmost-match scans they denote on the patterns actually used by the
source, Python float conversion as an exact-rational parser over the
grammar accepted by float() (ASCII fragment, numeric-literal underscores
and unicode digit or whitespace classes are not modelled; no property
below depends on binary rounding, so finite values are kept as exact
rationals), and the network as an oracle `Nat -> Fetch` giving each probed
id its transport outcome.  The periodic progress print of the scan loop is
purely observational and is not modelled.
-/

namespace InnOut

/-- Strings of the embedded program: lists of characters. -/
abbrev Str := List Char

/-- Conversion from Lean string literals to embedded strings. -/
def str (s : String) : Str := s.toList

/-- ASCII whitespace, modelling the whitespace class of Python regular
expressions and of strip() on the inputs that occur in this program. -/
def isWs (c : Char) : Bool :=
  decide (c.toNat = 32 ∨ c.toNat = 9 ∨ c.toNat = 10 ∨ c.toNat = 13 ∨
    c.toNat = 11 ∨ c.toNat = 12)

/-- ASCII digit test, modelling the digit class of Python regular
expressions on the inputs that occur in this program. -/
def isDigitC (c : Char) : Bool :=
  decide (48 ≤ c.toNat ∧ c.toNat ≤ 57)

/-- Boolean test that the first list is a prefix of the second. -/
def isPrefixStr : Str → Str → Bool
  | [], _ => true
  | _ :: _, [] => false
  | p :: ps, c :: cs => decide (p = c) && isPrefixStr ps cs

/-- Fuel-indexed worker for `replaceAll`; structural recursion on the fuel
keeps every evaluation kernel-reducible.  The fuel is always at least the
length of the string, which each step strictly decreases. -/
def replaceAllF (pat repl : Str) : Nat → Str → Str
  | _, [] => []
  | 0, s => s
  | fuel + 1, c :: rest =>
    if pat.length ≠ 0 ∧ isPrefixStr pat (c :: rest) = true then
      repl ++ replaceAllF pat repl fuel (List.drop pat.length (c :: rest))
    else
      c :: replaceAllF pat repl fuel rest

/-- Python str.replace: replace every non-overlapping occurrence of `pat`
by `repl`, scanning left to right (source line 50 uses it with an empty
replacement).  The empty-pattern case does not occur in the source. -/
def replaceAll (pat repl : Str) (s : Str) : Str :=
  replaceAllF pat repl s.length s

/-- Strip the given character class from both ends of a string, modelling
Python strip() and strip(chars). -/
def stripChars (p : Char → Bool) (s : Str) : Str :=
  ((List.dropWhile p s).reverse.dropWhile p).reverse

/-- Fuel-indexed worker for `collapseWs`. -/
def collapseWsF : Nat → Str → Str
  | _, [] => []
  | 0, s => s
  | fuel + 1, c :: rest =>
    if isWs c then ' ' :: collapseWsF fuel (List.dropWhile isWs rest)
    else c :: collapseWsF fuel rest

/-- Replace every maximal run of whitespace by a single space, modelling
re.sub of a one-or-more whitespace pattern with a space (source line 35). -/
def collapseWs (s : Str) : Str := collapseWsF s.length s

/-- Source normalize_whitespace (line 34): collapse whitespace runs to a
single space, then strip the ends. -/
def normalize_whitespace (s : Str) : Str := stripChars isWs (collapseWs s)

/-- Split at the first occurrence of `pat`, returning the parts before and
after it, or none when `pat` does not occur.  This models both the
membership test `pat in s` and `s.split(pat, 1)` of the source. -/
def splitOnFirst (pat : Str) : Str → Option (Str × Str)
  | [] => if pat.isEmpty then some ([], []) else none
  | c :: rest =>
    if isPrefixStr pat (c :: rest) = true then
      some ([], List.drop pat.length (c :: rest))
    else
      match splitOnFirst pat rest with
      | some pq => some (c :: pq.1, pq.2)
      | none => none

/-- Substring membership, modelling the Python `in` operator. -/
def containsStr (pat s : Str) : Bool := (splitOnFirst pat s).isSome

/-- First-occurrence split with the whole string as default, modelling
s.split(pat, 1) on strings that contain `pat`. -/
def splitFirst (pat s : Str) : Str × Str := (splitOnFirst pat s).getD (s, [])

/-- Helper for tag stripping: given the text right after an opening angle
bracket, find a nonempty run of characters other than a closing angle
bracket followed by a closing angle bracket, and return the text after
that bracket. -/
def tagEnd (s : Str) : Option Str :=
  if (List.takeWhile (fun c => !(decide (c = '>'))) s).isEmpty then none
  else
    match List.drop (List.takeWhile (fun c => !(decide (c = '>'))) s).length s with
    | [] => none
    | _ :: rest => some rest

/-- Fuel-indexed worker for `stripTags`. -/
def stripTagsF (repl : Str) : Nat → Str → Str
  | _, [] => []
  | 0, s => s
  | fuel + 1, c :: rest =>
    if decide (c = '<') = true then
      match tagEnd rest with
      | some after => repl ++ stripTagsF repl fuel after
      | none => c :: stripTagsF repl fuel rest
    else c :: stripTagsF repl fuel rest

/-- Python re.sub of the tag pattern (an opening angle bracket, one or more
characters other than a closing angle bracket, a closing angle bracket)
with replacement `repl`, scanning left to right (source lines 56 and 69). -/
def stripTags (repl : Str) (s : Str) : Str := stripTagsF repl s.length s

/-- Attempt, at the current position, the pattern consisting of the literal
`marker` followed by a captured nonempty run of non-quote characters and a
closing double quote.  Returns the capture.  A maximal run not followed by
a closing quote cannot match even after backtracking, because no shorter
nonempty run ends before a quote. -/
def tryAttr (marker : Str) (s : Str) : Option Str :=
  if isPrefixStr marker s = true then
    let after := List.drop marker.length s
    let run := List.takeWhile (fun c => !(decide (c = '"'))) after
    if run.isEmpty then none
    else if run.length < after.length then some run else none
  else none

/-- Python re.search for the attribute patterns of source lines 40 and 41:
leftmost position where `tryAttr` succeeds. -/
def searchCapture (marker : Str) : Str → Option Str
  | [] => none
  | c :: rest =>
    match tryAttr marker (c :: rest) with
    | some cap => some cap
    | none => searchCapture marker rest

/-- Python re.search with DOTALL for the element patterns of source lines
42 and 43: the lazily captured text between the first occurrence of
`openPat` and the first following occurrence of `closePat`.  When no close
follows the first open, no later start can match either, since every later
open occurs even further right. -/
def searchLazy (openPat closePat : Str) (s : Str) : Option Str :=
  match splitOnFirst openPat s with
  | some p1 =>
    match splitOnFirst closePat p1.2 with
    | some p2 => some p2.1
    | none => none
  | none => none

def baseUrl : Str := str "https://locations.in-n-out.com"

def latMarker : Str := str "data-latitude=\""

def lngMarker : Str := str "data-longitude=\""

def h3Open : Str := str "<h3 class=\"street-address\">"

def h3Close : Str := str "</h3>"

def titleOpen : Str := str "<title>"

def titleClose : Str := str "</title>"

def imgPat1 : Str := str "<img src=\""

def imgPat2 : Str := str "\" alt=\"In-N-Out Burger - "

def imgPat3 : Str := str "\" class=\"store-image\""

def sepStr : Str := str " - "

/-- Attempt, at the current position, the store-image pattern of source
line 44: the img literal, a captured src run, the brand alt literal with a
nonempty alt run, and the class literal.  Both runs exclude double quotes,
so greedy matching with backtracking is equivalent to taking the maximal
run and then requiring the following literal. -/
def tryImg (s : Str) : Option Str :=
  if isPrefixStr imgPat1 s = true then
    let a1 := List.drop imgPat1.length s
    let run1 := List.takeWhile (fun c => !(decide (c = '"'))) a1
    if run1.isEmpty then none
    else
      let a2 := List.drop run1.length a1
      if isPrefixStr imgPat2 a2 = true then
        let a3 := List.drop imgPat2.length a2
        let run2 := List.takeWhile (fun c => !(decide (c = '"'))) a3
        if run2.isEmpty then none
        else if isPrefixStr imgPat3 (List.drop run2.length a3) = true then some run1
        else none
      else none
  else none

/-- Python re.search for the store-image pattern: leftmost position where
`tryImg` succeeds. -/
def searchImg : Str → Option Str
  | [] => none
  | c :: rest =>
    match tryImg (c :: rest) with
    | some cap => some cap
    | none => searchImg rest

/-- Leading run of ASCII digits, modelling the anchored digit-group match
of source line 51. -/
def leadingDigits (s : Str) : Str := List.takeWhile isDigitC s

/-- Source line 50: the URL path is the url with every occurrence of the
base origin removed and slashes stripped from both ends. -/
def pathOf (url : Str) : Str :=
  stripChars (fun c => decide (c = '/')) (replaceAll baseUrl [] url)

/-- Match, against the text right after a candidate comma, the tail of the
zip pattern of source line 62: optional whitespace, exactly five digits,
an optional dash plus four digits, end of string.  Returns the five
digits. -/
def zipTail (s : Str) : Option Str :=
  let afterWs := List.dropWhile isWs s
  let d5 := List.take 5 afterWs
  if decide (d5.length = 5) && d5.all isDigitC then
    match List.drop 5 afterWs with
    | [] => some d5
    | c :: t =>
      if decide (c = '-') && decide (t.length = 4) && t.all isDigitC then some d5
      else none
  else none

/-- Scan for the leftmost comma whose tail matches `zipTail`, accumulating
the reversed text before it.  This models the lazy leading group of the
anchored zip pattern of source line 62.  The lazy group sees no newlines
here because its input is always whitespace-normalized first. -/
def zipMatchAux (pre : Str) : Str → Option (Str × Str)
  | [] => none
  | c :: rest =>
    if decide (c = ',') = true then
      match zipTail rest with
      | some z => some (pre.reverse, z)
      | none => zipMatchAux (c :: pre) rest
    else zipMatchAux (c :: pre) rest

/-- Python re.search of the anchored zip pattern of source line 62,
returning the leading group and the five zip digits. -/
def zipMatch (s : Str) : Option (Str × Str) := zipMatchAux [] s

/-- Powers of ten, kept as a plain recursive function so that all rational
values reduce inside the kernel. -/
def pow10 : Nat → Nat
  | 0 => 1
  | n + 1 => 10 * pow10 n

/-- Numeric value of a digit string, modelling Python int() on the digit
strings that occur in this program. -/
def digitsToNat (s : Str) : Nat := s.foldl (fun a c => 10 * a + (c.toNat - 48)) 0

/-- Values of Python float conversion: finite values are kept as exact
rationals, plus the two infinities and not-a-number. -/
inductive PyFloat where
  | finite (q : Rat)
  | inf
  | negInf
  | nan
deriving DecidableEq, Repr

/-- Python float() on strings (source lines 78 and 79): strip whitespace,
optional sign, then case-insensitive inf, infinity or nan, or a decimal
literal with optional fractional part and optional exponent.  Returns none
exactly when float() raises ValueError. -/
def pyFloat? (s : Str) : Option PyFloat :=
  let t := stripChars isWs s
  if t.isEmpty then none
  else
    let sgn : Bool × Str :=
      match t with
      | '+' :: r => (false, r)
      | '-' :: r => (true, r)
      | r => (false, r)
    let neg := sgn.1
    let u := sgn.2
    let low := u.map Char.toLower
    if decide (low = str "inf") || decide (low = str "infinity") then
      some (if neg then PyFloat.negInf else PyFloat.inf)
    else if decide (low = str "nan") then some PyFloat.nan
    else
      let ip := List.takeWhile isDigitC u
      let r1 := List.drop ip.length u
      let fpr : Str × Str :=
        match r1 with
        | '.' :: rr => (List.takeWhile isDigitC rr, List.drop (List.takeWhile isDigitC rr).length rr)
        | _ => ([], r1)
      let fp := fpr.1
      let r2 := fpr.2
      if ip.isEmpty && fp.isEmpty then none
      else
        let mant : Int := (digitsToNat ip * pow10 fp.length + digitsToNat fp : Nat)
        let m : Int := if neg then -mant else mant
        match r2 with
        | [] => some (PyFloat.finite (mkRat m (pow10 fp.length)))
        | e :: rr =>
          if decide (e = 'e') || decide (e = 'E') then
            let es : Bool × Str :=
              match rr with
              | '+' :: r3 => (false, r3)
              | '-' :: r3 => (true, r3)
              | r3 => (false, r3)
            let eneg := es.1
            let er := es.2
            let ed := List.takeWhile isDigitC er
            if ed.isEmpty then none
            else if (List.drop ed.length er).isEmpty then
              let ev := digitsToNat ed
              if eneg then some (PyFloat.finite (mkRat m (pow10 (fp.length + ev))))
              else some (PyFloat.finite (mkRat (m * ((pow10 ev : Nat) : Int)) (pow10 fp.length)))
            else none
          else none

/-- The heading split of source lines 57 to 65: split at the first
occurrence of the separator when present, then match the zip pattern on
the right part. -/
def headingFields (h3 : Str) : Str × Str × Str :=
  let p := if containsStr sepStr h3 then splitFirst sepStr h3 else (h3, [])
  let city_state := p.1
  let address_zip := p.2
  match zipMatch address_zip with
  | some az => (city_state, normalize_whitespace az.1, az.2)
  | none => (city_state, address_zip, [])

/-- The output record of the extractor, mirroring the Location dataclass
of source lines 20 to 31. -/
structure Location where
  id : Str
  slug : Str
  name : Str
  city_state : Str
  address_line : Str
  zip_code : Str
  latitude : PyFloat
  longitude : PyFloat
  url : Str
  image_url : Str
deriving DecidableEq, Repr

def fallbackName : Str := str "In-N-Out Burger"

/-- Business-name extraction of source lines 67 to 71: strip tags from the
title with an empty replacement, normalize, and take the text before the
first separator, falling back to the fixed name. -/
def nameOfTitle (title_m : Option Str) : Str :=
  match title_m with
  | none => fallbackName
  | some raw =>
    let t := normalize_whitespace (stripTags [] raw)
    if containsStr sepStr t then (splitFirst sepStr t).1 else fallbackName

/-- Image-url handling of source lines 73 to 75: empty when absent, and
root-relative sources are prefixed with the base origin. -/
def imageUrlOf (img_m : Option Str) : Str :=
  let image_url := match img_m with | some src => src | none => []
  if isPrefixStr (str "/") image_url = true then baseUrl ++ image_url else image_url

/-- The extractor parse_store_page of source lines 38 to 94. -/
def parse_store_page (url html : Str) : Option Location :=
  let lat_m := searchCapture latMarker html
  let lng_m := searchCapture lngMarker html
  let h3_m := searchLazy h3Open h3Close html
  let title_m := searchLazy titleOpen titleClose html
  let img_m := searchImg html
  match lat_m, lng_m, h3_m with
  | some latS, some lngS, some h3Raw =>
    let path := pathOf url
    let storeId := leadingDigits path
    if storeId.isEmpty then none
    else
      let h3 := normalize_whitespace (stripTags (str " ") h3Raw)
      let hf := headingFields h3
      match pyFloat? latS, pyFloat? lngS with
      | some lat, some lng =>
        some { id := storeId, slug := path, name := nameOfTitle title_m,
               city_state := normalize_whitespace hf.1,
               address_line := normalize_whitespace hf.2.1,
               zip_code := hf.2.2,
               latitude := lat, longitude := lng,
               url := url, image_url := imageUrlOf img_m }
      | _, _ => none
  | _, _, _ => none

/-! ### Scanner -/

/-- Decimal digit string of a natural number, fuel-indexed worker. -/
def natDigitsF : Nat → Nat → Str
  | 0, _ => []
  | fuel + 1, n =>
    if n < 10 then [Char.ofNat (48 + n)]
    else natDigitsF fuel (n / 10) ++ [Char.ofNat (48 + n % 10)]

/-- Decimal digit string of a natural number, modelling the Python string
formatting of the loop counter in the candidate URL (source line 105). -/
def natDigits (n : Nat) : Str := natDigitsF (n + 1) n

/-- Candidate URL of source line 105: base origin, slash, decimal id. -/
def urlOf (i : Nat) : Str := baseUrl ++ ('/' :: natDigits i)

/-- Transport outcome of one fetch: a raised exception, or a response with
a status code, a body, and the final URL after redirects.  The final URL
is part of the response object the source receives but never reads. -/
inductive Fetch where
  | err : Fetch
  | resp (status : Nat) (body : Str) (finalUrl : Str) : Fetch
deriving DecidableEq

/-- A scan run is driven by an oracle giving each id its fetch outcome. -/
abbrev Oracle := Nat → Fetch

/-- Source lines 106 to 110: a raised exception or a non-200 status code
yields an empty body, a 200 response yields its body text. -/
def bodyOf : Fetch → Str
  | Fetch.err => []
  | Fetch.resp status body _ => if status = 200 then body else []

/-- Status and body of an outcome, without the final URL: everything of a
response that the scan loop can observe. -/
def obsOf : Fetch → Option (Nat × Str)
  | Fetch.err => none
  | Fetch.resp status body _ => some (status, body)

/-- Source line 112: a nonempty body is handed to the extractor together
with the constructed URL; an empty body yields no record. -/
def probeResult (o : Oracle) (i : Nat) : Option Location :=
  let html := bodyOf (o i)
  if html.isEmpty then none else parse_store_page (urlOf i) html

/-- The mutable state of the scan loop: the accumulating result mapping,
kept as an insertion-ordered association list as a Python dict is, and the
consecutive-miss counter. -/
structure ScanState where
  found : List (Str × Location)
  misses : Nat
deriving DecidableEq

/-- Python dict assignment on an insertion-ordered association list:
an existing key keeps its position and gets the new value, a new key is
appended at the end. -/
def dictInsert (m : List (Str × Location)) (k : Str) (v : Location) :
    List (Str × Location) :=
  if k ∈ m.map Prod.fst then
    m.map (fun kv => if kv.1 = k then (k, v) else kv)
  else m ++ [(k, v)]

/-- One iteration body of source lines 104 to 117: on a record, store it
under the record's own id and reset the miss counter; otherwise count a
miss. -/
def scanStep (o : Oracle) (st : ScanState) (i : Nat) : ScanState :=
  match probeResult o i with
  | some loc => { found := dictInsert st.found loc.id loc, misses := 0 }
  | none => { found := st.found, misses := st.misses + 1 }

/-- Observable outcome of a scan run: final state, the ids probed in
order, the ids after whose attempt the fixed delay was slept, and whether
the run ended through the early-stop break. -/
structure RunResult where
  state : ScanState
  probed : List Nat
  slept : List Nat
  stopped : Bool
deriving DecidableEq

/-- The scan loop of source lines 104 to 126 over an explicit id list,
with the miss threshold `t` and the minimum-id floor `flr` (the source
hardwires the floor to 300 on line 122).  After each step the break
condition is evaluated; the sleep of line 126 is only reached when the
loop does not break. -/
def runScan (o : Oracle) (t flr : Nat) : ScanState → List Nat → RunResult
  | st, [] => ⟨st, [], [], false⟩
  | st, i :: rest =>
    let st' := scanStep o st i
    if t ≤ st'.misses ∧ flr < i then ⟨st', [i], [], true⟩
    else
      let r := runScan o t flr st' rest
      ⟨r.state, i :: r.probed, i :: r.slept, r.stopped⟩

/-- Sequential composition of two run results: the second leg is ignored
when the first leg already stopped. -/
def seqRun (r1 r2 : RunResult) : RunResult :=
  if r1.stopped = true then r1
  else ⟨r2.state, r1.probed ++ r2.probed, r1.slept ++ r2.slept, r2.stopped⟩

/-- Source scrape_by_ids (lines 97 to 128): scan ids 1 to maxId with the
floor fixed at 300, starting from an empty result mapping. -/
def scrape_by_ids (o : Oracle) (maxId t : Nat) : RunResult :=
  runScan o t 300 ⟨[], 0⟩ (List.range' 1 maxId)

/-- Result mapping after the first `n` loop iterations of a scan run with
upper bound at least `n` (prefix stages of the run). -/
def scanFoundAt (o : Oracle) (t n : Nat) : List (Str × Location) :=
  (runScan o t 300 ⟨[], 0⟩ (List.range' 1 n)).state.found

/-- Reference consecutive-miss counter: its value after processing id `i`,
computed without any early stop.  The counter is reset by a hit and
incremented by a miss, independently of the result mapping. -/
def missCount (o : Oracle) : Nat → Nat
  | 0 => 0
  | i + 1 => if (probeResult o (i + 1)).isSome then 0 else missCount o i + 1

/-- The early-stop condition of source line 122, evaluated after the
iteration of id `i`. -/
def stopCond (o : Oracle) (t flr i : Nat) : Prop :=
  t ≤ missCount o i ∧ flr < i

instance (o : Oracle) (t flr i : Nat) : Decidable (stopCond o t flr i) :=
  inferInstanceAs (Decidable (t ≤ missCount o i ∧ flr < i))

/-- First number in `[s, s + m)` satisfying `p`, scanning upward. -/
def firstFrom (p : Nat → Bool) : Nat → Nat → Option Nat
  | _, 0 => none
  | s, m + 1 => if p s then some s else firstFrom p (s + 1) m

/-- The id at which a scan with bound `maxId`, threshold `t` and floor
`flr` stops: the first id whose post-iteration state satisfies the
early-stop condition, or `maxId` when none does. -/
def scanStopId (o : Oracle) (t flr maxId : Nat) : Nat :=
  (firstFrom (fun i => decide (stopCond o t flr i)) 1 maxId).getD maxId

/-! ### Output ordering -/

/-- Comparison of result entries by the numeric value of the id, the sort
key int(id) of source line 139. -/
def byIdNum (a b : Str × Location) : Prop := digitsToNat a.1 ≤ digitsToNat b.1

instance : DecidableRel byIdNum :=
  fun a b => inferInstanceAs (Decidable (digitsToNat a.1 ≤ digitsToNat b.1))

instance : IsTotal (Str × Location) byIdNum :=
  ⟨fun a b => Nat.le_total (digitsToNat a.1) (digitsToNat b.1)⟩

instance : IsTrans (Str × Location) byIdNum :=
  ⟨fun _ _ _ hab hbc => Nat.le_trans hab hbc⟩

/-- The emission order of source line 139: the result mapping sorted
ascending by the numeric value of the id key.  The keys of an actual
result mapping are distinct digit strings, so any sorting algorithm
produces the same sequence as Python sorted. -/
def sortedLocations (m : List (Str × Location)) : List (Str × Location) :=
  List.insertionSort byIdNum m


/-! ### Concrete sample data used in witnesses and counterexamples -/

/-- A store page body containing a title, both coordinate markers with
float-parsable values, and a street-address heading. -/
def sampleHtmlStr : Str :=
  str "<title>In-N-Out Burger - Los Angeles</title><div data-latitude=\"34.05\" data-longitude=\"-117.75\"></div><h3 class=\"street-address\">Los Angeles, CA - 123 Main St, 90001</h3>"

/-- Oracle for which every fetch raises a transport error. -/
def allErrOracle : Oracle := fun _ => Fetch.err

/-- Oracle with valid pages at ids 1 to 5 and transport errors beyond. -/
def hitThenMissOracle : Oracle :=
  fun i => if i ≤ 5 then Fetch.resp 200 sampleHtmlStr [] else Fetch.err

/-- Oracle answering every fetch with status 201 and a valid page body. -/
def resp201Oracle : Oracle := fun _ => Fetch.resp 201 sampleHtmlStr []

/-- Oracle answering every fetch with status 200 and a valid page body. -/
def sampleOracle : Oracle := fun _ => Fetch.resp 200 sampleHtmlStr []

/-- Two oracles whose responses differ only in the final URL. -/
def finalUrlOracleA : Oracle := fun _ => Fetch.resp 404 [] (str "a")

def finalUrlOracleB : Oracle := fun _ => Fetch.resp 404 [] (str "b")

def dummyLoc : Location := ⟨[], [], [], [], [], [], PyFloat.nan, PyFloat.nan, [], []⟩

/-- The record extracted from `sampleHtmlStr` at the id-7 URL. -/
def sampleLoc : Location := (probeResult sampleOracle 7).getD dummyLoc

/-- A URL whose path does not begin with a digit. -/
def badUrl : Str := str "https://locations.in-n-out.com/store/alpha"

/-- Minimal location value with a given id, for the sort-order example. -/
def mkSampleLoc (s : String) : Location :=
  ⟨str s, str s, fallbackName, [], [], [], PyFloat.finite 0, PyFloat.finite 0, [], []⟩

/-- Result mapping with ids 2, 10, 1 in insertion order. -/
def exampleMap : List (Str × Location) :=
  [(str "2", mkSampleLoc "2"), (str "10", mkSampleLoc "10"), (str "1", mkSampleLoc "1")]

/-! ### Helper lemmas about strings and digits -/

theorem takeWhile_eq_self_of_all {α : Type} (p : α → Bool) (l : List α)
    (h : ∀ c ∈ l, p c = true) : l.takeWhile p = l := by
  induction l with
  | nil => rfl
  | cons a l ih =>
    rw [List.takeWhile_cons, if_pos (h a (List.mem_cons_self a l))]
    exact congrArg (a :: ·) (ih fun c hc => h c (List.mem_cons_of_mem a hc))

theorem dropWhile_eq_self_of_all {α : Type} (p : α → Bool) (l : List α)
    (h : ∀ c ∈ l, p c = false) : l.dropWhile p = l := by
  cases l with
  | nil => rfl
  | cons a l =>
    rw [List.dropWhile_cons, if_neg]
    simp [h a (List.mem_cons_self a l)]

theorem ofNat_digit_toNat : ∀ d : Nat, d < 10 → (Char.ofNat (48 + d)).toNat = 48 + d := by
  decide

theorem isDigitC_ofNat : ∀ d : Nat, d < 10 → isDigitC (Char.ofNat (48 + d)) = true := by
  decide

theorem digit_toNat_le {c : Char} (h : isDigitC c = true) : 48 ≤ c.toNat ∧ c.toNat ≤ 57 := by
  simpa [isDigitC] using h

theorem digit_ne_slash {c : Char} (h : isDigitC c = true) : c ≠ '/' := by
  intro he
  subst he
  revert h
  decide

theorem digit_ne_h {c : Char} (h : isDigitC c = true) : c ≠ 'h' := by
  intro he
  subst he
  revert h
  decide

theorem digitsToNat_append_digit (xs : Str) (c : Char) :
    digitsToNat (xs ++ [c]) = 10 * digitsToNat xs + (c.toNat - 48) := by
  unfold digitsToNat
  rw [List.foldl_append]
  rfl

theorem natDigitsF_spec : ∀ fuel n : Nat, n < fuel →
    natDigitsF fuel n ≠ [] ∧ (∀ c ∈ natDigitsF fuel n, isDigitC c = true) ∧
      digitsToNat (natDigitsF fuel n) = n := by
  intro fuel
  induction fuel with
  | zero => intro n h; omega
  | succ fuel ih =>
    intro n h
    by_cases h10 : n < 10
    · refine ⟨?_, ?_, ?_⟩ <;> simp only [natDigitsF, if_pos h10]
      · simp
      · intro c hc
        rw [List.mem_singleton] at hc
        subst hc
        exact isDigitC_ofNat n h10
      · show digitsToNat ([] ++ [Char.ofNat (48 + n)]) = n
        rw [digitsToNat_append_digit, ofNat_digit_toNat n h10]
        simp [digitsToNat]
    · have hdiv : n / 10 < fuel := by
        have := Nat.div_lt_self (by omega : 0 < n) (by omega : 1 < 10)
        omega
      obtain ⟨hne, hdig, hval⟩ := ih (n / 10) hdiv
      have hmod : n % 10 < 10 := Nat.mod_lt _ (by omega)
      refine ⟨?_, ?_, ?_⟩ <;> simp only [natDigitsF, if_neg h10]
      · simp
      · intro c hc
        rw [List.mem_append] at hc
        rcases hc with hc | hc
        · exact hdig c hc
        · rw [List.mem_singleton] at hc
          subst hc
          exact isDigitC_ofNat _ hmod
      · rw [digitsToNat_append_digit, hval, ofNat_digit_toNat _ hmod]
        omega

theorem natDigits_ne_nil (n : Nat) : natDigits n ≠ [] :=
  (natDigitsF_spec (n + 1) n (Nat.lt_succ_self n)).1

theorem natDigits_all_digit (n : Nat) : ∀ c ∈ natDigits n, isDigitC c = true :=
  (natDigitsF_spec (n + 1) n (Nat.lt_succ_self n)).2.1

theorem digitsToNat_natDigits (n : Nat) : digitsToNat (natDigits n) = n :=
  (natDigitsF_spec (n + 1) n (Nat.lt_succ_self n)).2.2

theorem natDigits_inj {a b : Nat} (h : natDigits a = natDigits b) : a = b := by
  have := digitsToNat_natDigits a
  rw [h, digitsToNat_natDigits] at this
  omega

theorem isPrefixStr_append (p s : Str) : isPrefixStr p (p ++ s) = true := by
  induction p with
  | nil => rfl
  | cons a t ih => simp [isPrefixStr, ih]

theorem replaceAllF_fuel (pat repl : Str) :
    ∀ (f1 f2 : Nat) (s : Str), s.length ≤ f1 → s.length ≤ f2 →
      replaceAllF pat repl f1 s = replaceAllF pat repl f2 s := by
  intro f1
  induction f1 with
  | zero =>
    intro f2 s h1 _
    have : s = [] := List.length_eq_zero.mp (Nat.le_zero.mp h1)
    subst this
    cases f2 <;> rfl
  | succ f1 ih =>
    intro f2 s h1 h2
    cases s with
    | nil => cases f2 <;> rfl
    | cons c rest =>
      cases f2 with
      | zero => simp at h2
      | succ g =>
        simp only [replaceAllF]
        by_cases hc : pat.length ≠ 0 ∧ isPrefixStr pat (c :: rest) = true
        · rw [if_pos hc, if_pos hc]
          have hlen : (List.drop pat.length (c :: rest)).length ≤ f1 := by
            rw [List.length_drop]
            simp only [List.length_cons] at h1 ⊢
            omega
          have hlen2 : (List.drop pat.length (c :: rest)).length ≤ g := by
            rw [List.length_drop]
            simp only [List.length_cons] at h2 ⊢
            omega
          rw [ih g _ hlen hlen2]
        · rw [if_neg hc, if_neg hc]
          have hlen : rest.length ≤ f1 := by
            simp only [List.length_cons] at h1
            omega
          have hlen2 : rest.length ≤ g := by
            simp only [List.length_cons] at h2
            omega
          rw [ih g _ hlen hlen2]

theorem replaceAll_cons_head (pat s : Str) (hne : pat ≠ []) :
    replaceAll pat [] (pat ++ s) = replaceAll pat [] s := by
  unfold replaceAll
  cases hp : pat with
  | nil => exact absurd hp hne
  | cons a ps =>
    rw [← hp]
    have hshape : pat ++ s = a :: (ps ++ s) := by rw [hp]; rfl
    rw [hshape]
    have hplen : (a :: (ps ++ s)).length = pat.length + s.length := by
      rw [← hshape, List.length_append]
    cases hL : (a :: (ps ++ s)).length with
    | zero => simp at hL
    | succ L =>
      simp only [replaceAllF]
      rw [if_pos]
      · rw [← hshape, List.drop_left]
        have hs1 : s.length ≤ L := by
          rw [hL] at hplen
          have : pat.length ≠ 0 := by
            rw [hp]
            simp
          omega
        exact (List.nil_append _) ▸ replaceAllF_fuel pat [] L s.length s hs1 (Nat.le_refl _)
      · constructor
        · rw [hp]; simp
        · rw [← hshape]
          exact isPrefixStr_append pat s

theorem replaceAllF_no_head (a : Char) (ps repl : Str) :
    ∀ (fuel : Nat) (s : Str), s.length ≤ fuel → a ∉ s →
      replaceAllF (a :: ps) repl fuel s = s := by
  intro fuel
  induction fuel with
  | zero =>
    intro s h1 _
    have : s = [] := List.length_eq_zero.mp (Nat.le_zero.mp h1)
    subst this
    rfl
  | succ fuel ih =>
    intro s h1 hmem
    cases s with
    | nil => rfl
    | cons c rest =>
      simp only [replaceAllF]
      rw [if_neg]
      · have : rest.length ≤ fuel := by
          simp only [List.length_cons] at h1
          omega
        rw [ih rest this fun hr => hmem (List.mem_cons_of_mem c hr)]
      · rintro ⟨-, hpre⟩
        simp only [isPrefixStr, Bool.and_eq_true, decide_eq_true_eq] at hpre
        exact hmem (hpre.1 ▸ List.mem_cons_self c rest)

theorem replaceAll_no_head (a : Char) (ps repl s : Str) (hmem : a ∉ s) :
    replaceAll (a :: ps) repl s = s :=
  replaceAllF_no_head a ps repl s.length s (Nat.le_refl _) hmem

theorem stripChars_slash_digits (d : Str) (hd : ∀ c ∈ d, isDigitC c = true) :
    stripChars (fun c => decide (c = '/')) ('/' :: d) = d := by
  unfold stripChars
  have hfail : ∀ c ∈ d, (fun c => decide (c = '/')) c = false := by
    intro c hc
    simp [digit_ne_slash (hd c hc)]
  have h1 : List.dropWhile (fun c => decide (c = '/')) ('/' :: d) = d := by
    rw [List.dropWhile_cons, if_pos (by simp)]
    exact dropWhile_eq_self_of_all _ d hfail
  rw [h1, dropWhile_eq_self_of_all _ d.reverse (fun c hc => hfail c (List.mem_reverse.mp hc)),
    List.reverse_reverse]

theorem pathOf_urlOf (i : Nat) : pathOf (urlOf i) = natDigits i := by
  unfold pathOf urlOf
  have hb : baseUrl = 'h' :: str "ttps://locations.in-n-out.com" := by decide
  have hmem : 'h' ∉ '/' :: natDigits i := by
    intro hm
    rcases List.mem_cons.mp hm with hm | hm
    · simp at hm
    · exact digit_ne_h (natDigits_all_digit i _ hm) rfl
  rw [replaceAll_cons_head baseUrl _ (by decide)]
  rw [hb, replaceAll_no_head _ _ _ _ hmem]
  exact stripChars_slash_digits _ (natDigits_all_digit i)

theorem leadingDigits_natDigits (i : Nat) : leadingDigits (natDigits i) = natDigits i :=
  takeWhile_eq_self_of_all _ _ (natDigits_all_digit i)

/-! ### Helper lemmas about the extractor -/

theorem parse_isSome (url html : Str) :
    (parse_store_page url html).isSome
      = (((searchCapture latMarker html).bind pyFloat?).isSome
        && ((searchCapture lngMarker html).bind pyFloat?).isSome
        && (searchLazy h3Open h3Close html).isSome
        && !(leadingDigits (pathOf url)).isEmpty) := by
  simp only [parse_store_page]
  cases hlat : searchCapture latMarker html with
  | none => simp
  | some latS =>
    cases hlng : searchCapture lngMarker html with
    | none => simp
    | some lngS =>
      cases hh3 : searchLazy h3Open h3Close html with
      | none => simp
      | some h3Raw =>
        by_cases hid : (leadingDigits (pathOf url)).isEmpty
        · simp only [hid, if_pos]
          simp [hid]
        · simp only [Bool.not_eq_true] at hid
          simp only [hid, Bool.false_eq_true, if_false]
          cases hla : pyFloat? latS with
          | none => simp [hla]
          | some la =>
            cases hlo : pyFloat? lngS with
            | none => simp [hla, hlo]
            | some lo => simp [hla, hlo]

theorem parse_some_id {url html : Str} {l : Location}
    (h : parse_store_page url html = some l) : l.id = leadingDigits (pathOf url) := by
  simp only [parse_store_page] at h
  cases hlat : searchCapture latMarker html with
  | none => rw [hlat] at h; exact absurd h (by simp)
  | some latS =>
    rw [hlat] at h
    cases hlng : searchCapture lngMarker html with
    | none => rw [hlng] at h; exact absurd h (by simp)
    | some lngS =>
      rw [hlng] at h
      cases hh3 : searchLazy h3Open h3Close html with
      | none => rw [hh3] at h; exact absurd h (by simp)
      | some h3Raw =>
        rw [hh3] at h
        simp only [] at h
        by_cases hid : (leadingDigits (pathOf url)).isEmpty
        · rw [if_pos hid] at h; exact absurd h (by simp)
        · rw [if_neg hid] at h
          cases hla : pyFloat? latS with
          | none => rw [hla] at h; exact absurd h (by simp)
          | some la =>
            rw [hla] at h
            cases hlo : pyFloat? lngS with
            | none => rw [hlo] at h; exact absurd h (by simp)
            | some lo =>
              rw [hlo] at h
              cases h
              rfl

theorem probeResult_id {o : Oracle} {i : Nat} {l : Location}
    (h : probeResult o i = some l) : l.id = natDigits i := by
  simp only [probeResult] at h
  by_cases he : (bodyOf (o i)).isEmpty
  · rw [if_pos he] at h; exact absurd h (by simp)
  · rw [if_neg he] at h
    rw [parse_some_id h, pathOf_urlOf, leadingDigits_natDigits]

/-! ### Helper lemmas about the scan loop -/

theorem scanStep_misses {o : Oracle} {st : ScanState} {i : Nat}
    (h : st.misses = missCount o i) :
    (scanStep o st (i + 1)).misses = missCount o (i + 1) := by
  simp only [scanStep, missCount]
  cases hp : probeResult o (i + 1) with
  | some l => simp [hp]
  | none => simp [hp, h]

theorem runScan_single_state (o : Oracle) (t flr : Nat) (st : ScanState) (i : Nat) :
    (runScan o t flr st [i]).state = scanStep o st i := by
  simp only [runScan]
  split <;> rfl

theorem runScan_append (o : Oracle) (t flr : Nat) (st : ScanState) (l1 l2 : List Nat) :
    runScan o t flr st (l1 ++ l2)
      = seqRun (runScan o t flr st l1)
          (runScan o t flr (runScan o t flr st l1).state l2) := by
  induction l1 generalizing st with
  | nil =>
    simp [runScan, seqRun]
  | cons i l1 ih =>
    simp only [List.cons_append, runScan, List.append_eq]
    by_cases hbr : t ≤ (scanStep o st i).misses ∧ flr < i
    · rw [if_pos hbr, if_pos hbr]
      simp [seqRun]
    · rw [if_neg hbr, if_neg hbr]
      rw [ih (scanStep o st i)]
      simp only [seqRun]
      by_cases hs : (runScan o t flr (scanStep o st i) l1).stopped = true
      · rw [if_pos hs]
        simp only [hs, if_pos]
      · rw [if_neg hs]
        simp only [Bool.not_eq_true] at hs
        simp [hs, List.append_assoc]

theorem runScan_stopped_probed_ne_nil (o : Oracle) (t flr : Nat) :
    ∀ (ids : List Nat) (st : ScanState), (runScan o t flr st ids).stopped = true →
      (runScan o t flr st ids).probed ≠ [] := by
  intro ids st h
  cases ids with
  | nil => simp [runScan] at h
  | cons i rest =>
    simp only [runScan]
    by_cases hbr : t ≤ (scanStep o st i).misses ∧ flr < i
    · rw [if_pos hbr]; simp
    · rw [if_neg hbr]; simp

theorem runScan_slept_eq (o : Oracle) (t flr : Nat) :
    ∀ (ids : List Nat) (st : ScanState),
      (runScan o t flr st ids).slept
        = if (runScan o t flr st ids).stopped = true
          then (runScan o t flr st ids).probed.dropLast
          else (runScan o t flr st ids).probed := by
  intro ids
  induction ids with
  | nil => intro st; simp [runScan]
  | cons i rest ih =>
    intro st
    simp only [runScan]
    by_cases hbr : t ≤ (scanStep o st i).misses ∧ flr < i
    · rw [if_pos hbr]
      simp
    · rw [if_neg hbr]
      by_cases hs : (runScan o t flr (scanStep o st i) rest).stopped = true
      · have hne := runScan_stopped_probed_ne_nil o t flr rest (scanStep o st i) hs
        simp only [hs, if_pos]
        rw [List.dropLast_cons_of_ne_nil hne]
        exact congrArg (i :: ·) (by rw [ih (scanStep o st i), if_pos hs])
      · simp only [Bool.not_eq_true] at hs
        simp only [hs, Bool.false_eq_true, if_false]
        exact congrArg (i :: ·) (by rw [ih (scanStep o st i), hs]; simp)

theorem runScan_no_stop_below (o : Oracle) (t flr : Nat) :
    ∀ (ids : List Nat) (st : ScanState), (∀ i ∈ ids, i ≤ flr) →
      (runScan o t flr st ids).stopped = false := by
  intro ids
  induction ids with
  | nil => intro st _; rfl
  | cons i rest ih =>
    intro st h
    simp only [runScan]
    rw [if_neg]
    · exact ih (scanStep o st i) fun j hj => h j (List.mem_cons_of_mem i hj)
    · rintro ⟨-, hflr⟩
      exact absurd (h i (List.mem_cons_self i rest)) (by omega)

theorem firstFrom_ge {p : Nat → Bool} :
    ∀ (m s j : Nat), firstFrom p s m = some j → s ≤ j := by
  intro m
  induction m with
  | zero => intro s j h; simp [firstFrom] at h
  | succ m ih =>
    intro s j h
    simp only [firstFrom] at h
    split at h
    · cases h; exact Nat.le_refl _
    · exact Nat.le_trans (Nat.le_succ s) (ih (s + 1) j h)

theorem firstFrom_getD_ge {p : Nat → Bool} (m s d : Nat) (hd : s ≤ d) :
    s ≤ (firstFrom p s m).getD d := by
  cases h : firstFrom p s m with
  | none => simpa using hd
  | some j => simpa using firstFrom_ge m s j h

theorem firstFrom_none_all {p : Nat → Bool} :
    ∀ (m s : Nat), firstFrom p s m = none →
      ∀ j, s ≤ j → j < s + m → p j = false := by
  intro m
  induction m with
  | zero => intro s _ j h1 h2; omega
  | succ m ih =>
    intro s h j h1 h2
    simp only [firstFrom] at h
    split at h
    · exact absurd h (by simp)
    · rename_i hps
      rcases Nat.eq_or_lt_of_le h1 with rfl | hlt
      · simpa using hps
      · exact ih (s + 1) h j hlt (by omega)

theorem firstFrom_some_min {p : Nat → Bool} :
    ∀ (m s k : Nat), firstFrom p s m = some k →
      ∀ j, s ≤ j → j < k → p j = false := by
  intro m
  induction m with
  | zero => intro s k h; simp [firstFrom] at h
  | succ m ih =>
    intro s k h j h1 h2
    simp only [firstFrom] at h
    split at h
    · cases h; omega
    · rename_i hps
      rcases Nat.eq_or_lt_of_le h1 with rfl | hlt
      · simpa using hps
      · exact ih (s + 1) k h j hlt h2

theorem runScan_probed_eq (o : Oracle) (t flr : Nat) :
    ∀ (m i : Nat) (st : ScanState), st.misses = missCount o i →
      (runScan o t flr st (List.range' (i + 1) m)).probed
        = List.range' (i + 1)
            ((firstFrom (fun j => decide (stopCond o t flr j)) (i + 1) m).getD (i + m) - i) := by
  intro m
  induction m with
  | zero =>
    intro i st _
    simp [runScan, firstFrom]
  | succ m ih =>
    intro i st hmiss
    rw [List.range'_succ]
    simp only [runScan, firstFrom]
    have hmiss1 : (scanStep o st (i + 1)).misses = missCount o (i + 1) := scanStep_misses hmiss
    by_cases hcond : stopCond o t flr (i + 1)
    · have hbr : t ≤ (scanStep o st (i + 1)).misses ∧ flr < i + 1 := by
        rw [hmiss1]; exact hcond
      rw [if_pos hbr, if_pos (by simpa using hcond)]
      simp
    · have hbr : ¬(t ≤ (scanStep o st (i + 1)).misses ∧ flr < i + 1) := by
        rw [hmiss1]; exact hcond
      rw [if_neg hbr, if_neg (by simpa using hcond)]
      have hrec := ih (i + 1) (scanStep o st (i + 1)) hmiss1
      have hfall : i + 1 + m = i + (m + 1) := by omega
      rw [hfall] at hrec
      have hge : i + 1 ≤ (firstFrom (fun j => decide (stopCond o t flr j)) (i + 1 + 1)
          m).getD (i + (m + 1)) := by
        cases hf : firstFrom (fun j => decide (stopCond o t flr j)) (i + 1 + 1) m with
        | none => simp only [Option.getD_none]; omega
        | some j =>
          have := firstFrom_ge m (i + 1 + 1) j hf
          simp only [Option.getD_some]
          omega
      simp only []
      rw [hrec]
      have hK : (firstFrom (fun j => decide (stopCond o t flr j)) (i + 1 + 1)
            m).getD (i + (m + 1)) - i
          = ((firstFrom (fun j => decide (stopCond o t flr j)) (i + 1 + 1)
            m).getD (i + (m + 1)) - (i + 1)) + 1 := by
        omega
      rw [hK, List.range'_succ]

/-! ### Helper lemmas about the result mapping -/

theorem dictInsert_fresh {m : List (Str × Location)} {k : Str} {v : Location}
    (h : k ∉ m.map Prod.fst) : dictInsert m k v = m ++ [(k, v)] := by
  unfold dictInsert
  rw [if_neg h]

theorem scanFoundAt_zero (o : Oracle) (t : Nat) : scanFoundAt o t 0 = [] := rfl

theorem scanFoundAt_succ_cases (o : Oracle) (t n : Nat) :
    scanFoundAt o t (n + 1) = scanFoundAt o t n
    ∨ ∃ l : Location, probeResult o (n + 1) = some l
        ∧ scanFoundAt o t (n + 1) = dictInsert (scanFoundAt o t n) l.id l := by
  unfold scanFoundAt
  have hsplit : List.range' 1 (n + 1) = List.range' 1 n ++ [n + 1] := by
    have hc : List.range' 1 (n + 1) = List.range' 1 n ++ [1 + 1 * n] :=
      List.range'_concat 1 n
    simpa [Nat.add_comm] using hc
  rw [hsplit, runScan_append]
  by_cases hs : (runScan o t 300 ⟨[], 0⟩ (List.range' 1 n)).stopped = true
  · left
    simp [seqRun, hs]
  · have hstep : (seqRun (runScan o t 300 ⟨[], 0⟩ (List.range' 1 n))
        (runScan o t 300 (runScan o t 300 ⟨[], 0⟩ (List.range' 1 n)).state [n + 1])).state
        = scanStep o (runScan o t 300 ⟨[], 0⟩ (List.range' 1 n)).state (n + 1) := by
      simp only [seqRun, if_neg hs]
      exact runScan_single_state o t 300 _ (n + 1)
    rw [hstep]
    cases hp : probeResult o (n + 1) with
    | none =>
      left
      simp [scanStep, hp]
    | some l =>
      right
      exact ⟨l, rfl, by simp [scanStep, hp]⟩

theorem scanFound_keys (o : Oracle) (t : Nat) : ∀ n : Nat,
    (∀ k ∈ (scanFoundAt o t n).map Prod.fst, ∃ j, 1 ≤ j ∧ j ≤ n ∧ k = natDigits j)
    ∧ ((scanFoundAt o t n).map Prod.fst).Nodup := by
  intro n
  induction n with
  | zero =>
    constructor
    · intro k hk
      rw [scanFoundAt_zero] at hk
      simp at hk
    · rw [scanFoundAt_zero]
      simp
  | succ n ih =>
    rcases scanFoundAt_succ_cases o t n with heq | ⟨l, hp, heq⟩
    · rw [heq]
      refine ⟨fun k hk => ?_, ih.2⟩
      obtain ⟨j, h1, h2, h3⟩ := ih.1 k hk
      exact ⟨j, h1, Nat.le_succ_of_le h2, h3⟩
    · have hid : l.id = natDigits (n + 1) := probeResult_id hp
      have hfresh : l.id ∉ (scanFoundAt o t n).map Prod.fst := by
        rw [hid]
        intro hmem
        obtain ⟨j, h1, h2, h3⟩ := ih.1 _ hmem
        exact absurd (natDigits_inj h3) (by omega)
      rw [heq, dictInsert_fresh hfresh]
      constructor
      · intro k hk
        rw [List.map_append, List.mem_append] at hk
        rcases hk with hk | hk
        · obtain ⟨j, h1, h2, h3⟩ := ih.1 k hk
          exact ⟨j, h1, Nat.le_succ_of_le h2, h3⟩
        · simp only [List.map_cons, List.map_nil, List.mem_singleton] at hk
          exact ⟨n + 1, by omega, Nat.le_refl _, by rw [hk, hid]⟩
      · rw [List.map_append]
        simp [List.nodup_append, List.disjoint_singleton, ih.2, hfresh]

theorem scanFound_grows (o : Oracle) (t n : Nat) :
    scanFoundAt o t n <+: scanFoundAt o t (n + 1) := by
  rcases scanFoundAt_succ_cases o t n with heq | ⟨l, hp, heq⟩
  · rw [heq]
  · have hid : l.id = natDigits (n + 1) := probeResult_id hp
    have hfresh : l.id ∉ (scanFoundAt o t n).map Prod.fst := by
      rw [hid]
      intro hmem
      obtain ⟨j, h1, h2, h3⟩ := (scanFound_keys o t n).1 _ hmem
      exact absurd (natDigits_inj h3) (by omega)
    rw [heq, dictInsert_fresh hfresh]
    exact List.prefix_append _ _

/-! ### Helper lemmas about observational equivalence of oracles -/

theorem bodyOf_obs {f g : Fetch} (h : obsOf f = obsOf g) : bodyOf f = bodyOf g := by
  cases f with
  | err =>
    cases g with
    | err => rfl
    | resp s2 b2 u2 => simp [obsOf] at h
  | resp s b u =>
    cases g with
    | err => simp [obsOf] at h
    | resp s2 b2 u2 =>
      simp only [obsOf, Option.some.injEq, Prod.mk.injEq] at h
      simp [bodyOf, h.1, h.2]

theorem probeResult_obs {o o2 : Oracle} (h : ∀ i, obsOf (o i) = obsOf (o2 i)) (i : Nat) :
    probeResult o i = probeResult o2 i := by
  unfold probeResult
  rw [bodyOf_obs (h i)]

theorem scanStep_obs {o o2 : Oracle} (h : ∀ i, obsOf (o i) = obsOf (o2 i))
    (st : ScanState) (i : Nat) : scanStep o st i = scanStep o2 st i := by
  unfold scanStep
  rw [probeResult_obs h i]

theorem runScan_obs {o o2 : Oracle} (h : ∀ i, obsOf (o i) = obsOf (o2 i)) (t flr : Nat) :
    ∀ (ids : List Nat) (st : ScanState), runScan o t flr st ids = runScan o2 t flr st ids := by
  intro ids
  induction ids with
  | nil => intro st; rfl
  | cons i rest ih =>
    intro st
    simp only [runScan]
    rw [scanStep_obs h st i, ih (scanStep o2 st i)]

/-! ### Claims -/

/-- Claim C1 (corrected), counterexample to the original claim: a body
containing both coordinate markers with float-parsable values and the
street-address heading, paired with a URL whose path has no leading digit,
yields no record, so presence of the three body elements alone does not
suffice for a record. -/
theorem claim_C1_counterexample :
    parse_store_page badUrl sampleHtmlStr = none
    ∧ ((searchCapture latMarker sampleHtmlStr).bind pyFloat?).isSome = true
    ∧ ((searchCapture lngMarker sampleHtmlStr).bind pyFloat?).isSome = true
    ∧ (searchLazy h3Open h3Close sampleHtmlStr).isSome = true := by
  refine ⟨by decide, by decide, by decide, by decide⟩

/-- Claim C1 (amended): for every url and body, the extractor produces a
record if and only if the latitude marker is present with a float-parsable
value, the longitude marker is present with a float-parsable value, the
street-address heading is present, and the URL path begins with a digit;
a failure of any one of these yields no record at all, never a partially
filled one. -/
theorem claim_C1 (url html : Str) :
    (parse_store_page url html).isSome
      = (((searchCapture latMarker html).bind pyFloat?).isSome
        && ((searchCapture lngMarker html).bind pyFloat?).isSome
        && (searchLazy h3Open h3Close html).isSome
        && !(leadingDigits (pathOf url)).isEmpty) :=
  parse_isSome url html

/-- Claim C2: for every oracle, threshold, and upper bound, the sequence
of probed ids is exactly 1 up to the first id whose post-iteration miss
counter meets the threshold while the id exceeds the floor of 300 (or up
to maxId when no id satisfies that condition), and no id strictly before
that stopping id satisfies the stop condition; in particular nothing after
the stopping id is probed. -/
theorem claim_C2 (o : Oracle) (t maxId : Nat) :
    (scrape_by_ids o maxId t).probed = List.range' 1 (scanStopId o t 300 maxId)
    ∧ ∀ j, 1 ≤ j → j < scanStopId o t 300 maxId →
        decide (stopCond o t 300 j) = false := by
  constructor
  · unfold scrape_by_ids scanStopId
    have h := runScan_probed_eq o t 300 maxId 0 ⟨[], 0⟩ rfl
    simpa using h
  · intro j h1 hj
    unfold scanStopId at hj
    cases hf : firstFrom (fun i => decide (stopCond o t 300 i)) 1 maxId with
    | none =>
      rw [hf, Option.getD_none] at hj
      exact firstFrom_none_all maxId 1 hf j h1 (by omega)
    | some k =>
      rw [hf, Option.getD_some] at hj
      exact firstFrom_some_min maxId 1 k hf j h1 hj

/-- Claim C2 witness at a concrete input: with transport errors
everywhere, threshold 1 and bound 301, the probed ids are exactly the
range given by the stopping id, and id 5 does not satisfy the stop
condition. -/
theorem claim_C2_witness :
    (scrape_by_ids allErrOracle 301 1).probed
      = List.range' 1 (scanStopId allErrOracle 1 300 301)
    ∧ decide (stopCond allErrOracle 1 300 5) = false :=
  ⟨(claim_C2 allErrOracle 1 301).1,
   (claim_C2 allErrOracle 1 301).2 5 (by decide) (by decide)⟩

/-- Claim C3 (corrected), counterexample to the original claim: with
threshold 3 and floor 5, when every id misses, the scan halts at id 6
rather than id 8, because the misses at ids 1 to 5 already count toward
the consecutive-miss counter. -/
theorem claim_C3_counterexample :
    (runScan allErrOracle 3 5 ⟨[], 0⟩ (List.range' 1 100)).probed = List.range' 1 6
    ∧ ((runScan allErrOracle 3 5 ⟨[], 0⟩ (List.range' 1 100)).probed
        == List.range' 1 8) = false := by
  refine ⟨by decide, by decide⟩

/-- Claim C3 (amended): misses at ids at or below the floor cannot fire
the stop while the counter is below the floor, but they do count toward
the consecutive-miss counter.  With threshold 3 and floor 5: hits at ids
1 to 5 followed by misses halt the scan at id 8 even though the bound is
100; with misses from id 1 on, the scan halts at id 6, the first id past
the floor; and no scan whose ids all lie at or below the floor ever stops
early. -/
theorem claim_C3 :
    (runScan hitThenMissOracle 3 5 ⟨[], 0⟩ (List.range' 1 100)).probed
      = List.range' 1 8
    ∧ (runScan allErrOracle 3 5 ⟨[], 0⟩ (List.range' 1 100)).probed
      = List.range' 1 6
    ∧ ∀ (o : Oracle) (t flr : Nat) (st : ScanState) (ids : List Nat),
        (∀ i ∈ ids, i ≤ flr) → (runScan o t flr st ids).stopped = false := by
  refine ⟨by decide, by decide, ?_⟩
  intro o t flr st ids h
  exact runScan_no_stop_below o t flr ids st h

/-- Claim C3 witness at a concrete input: a scan over ids 1 to 3 with
floor 5 never stops early. -/
theorem claim_C3_witness :
    (runScan allErrOracle 3 5 ⟨[], 0⟩ [1, 2, 3]).stopped = false :=
  claim_C3.2.2 allErrOracle 3 5 ⟨[], 0⟩ [1, 2, 3] (by decide)

/-- Claim C4 (corrected), counterexample to the original claim: a status
201 response (a successful 2xx status) carrying a body that the extractor
would accept is nonetheless treated as an empty body and counted as a
miss, so not every 2xx body reaches the extractor. -/
theorem claim_C4_counterexample :
    (scanStep resp201Oracle ⟨[], 0⟩ 1).found = []
    ∧ (scanStep resp201Oracle ⟨[], 0⟩ 1).misses = 1
    ∧ (parse_store_page (urlOf 1) sampleHtmlStr).isSome = true
    ∧ 200 ≤ 201 ∧ 201 < 300 := by
  refine ⟨by decide, by decide, by decide, by decide, by decide⟩

/-- Claim C4 (amended): in each scan iteration a transport error, or any
response whose status is not exactly 200 (including other 2xx statuses),
is treated as an empty body and counted as a miss without aborting the
scan, while the body of a status-200 response, when non-empty, is handed
to the extractor, whose verdict alone decides between a hit and a miss. -/
theorem claim_C4 (o : Oracle) (st : ScanState) (i : Nat) :
    (o i = Fetch.err → scanStep o st i = ⟨st.found, st.misses + 1⟩)
    ∧ (∀ s b u, o i = Fetch.resp s b u → s ≠ 200 →
        scanStep o st i = ⟨st.found, st.misses + 1⟩)
    ∧ (∀ b u, o i = Fetch.resp 200 b u → b ≠ [] →
        scanStep o st i
          = match parse_store_page (urlOf i) b with
            | some l => ⟨dictInsert st.found l.id l, 0⟩
            | none => ⟨st.found, st.misses + 1⟩) := by
  refine ⟨?_, ?_, ?_⟩
  · intro h
    simp [scanStep, probeResult, h, bodyOf]
  · intro s b u h hs
    simp [scanStep, probeResult, h, bodyOf, hs]
  · intro b u h hb
    have hbe : b.isEmpty = false := by
      cases b with
      | nil => exact absurd rfl hb
      | cons x xs => rfl
    cases hp : parse_store_page (urlOf i) b with
    | none => simp [scanStep, probeResult, h, bodyOf, hbe, hp]
    | some l => simp [scanStep, probeResult, h, bodyOf, hbe, hp]

/-- Claim C4 witness at concrete inputs: a transport error and a 201
response are both recorded as a miss, and a 200 response with the sample
body steps through the extractor verdict. -/
theorem claim_C4_witness :
    scanStep allErrOracle ⟨[], 0⟩ 1 = ⟨[], 1⟩
    ∧ scanStep resp201Oracle ⟨[], 0⟩ 1 = ⟨[], 1⟩
    ∧ scanStep sampleOracle ⟨[], 0⟩ 7
        = match parse_store_page (urlOf 7) sampleHtmlStr with
          | some l => ⟨dictInsert [] l.id l, 0⟩
          | none => ⟨[], 1⟩ := by
  refine ⟨?_, ?_, ?_⟩
  · exact (claim_C4 allErrOracle ⟨[], 0⟩ 1).1 rfl
  · exact (claim_C4 resp201Oracle ⟨[], 0⟩ 1).2.1 201 sampleHtmlStr [] rfl (by decide)
  · exact (claim_C4 sampleOracle ⟨[], 0⟩ 7).2.2 sampleHtmlStr [] rfl (by decide)

/-- Claim C5: every record returned by the extractor has id equal to the
leading digit run of the URL path (the url with the base origin removed
and slashes stripped at both ends, per source line 50); the id is fully
determined by the url and never depends on the page body; and for every
url whose path does not begin with a digit, extraction fails regardless
of the body. -/
theorem claim_C5 :
    (∀ (url html : Str) (l : Location), parse_store_page url html = some l →
        l.id = leadingDigits (pathOf url))
    ∧ (∀ (url hA hB : Str) (l1 l2 : Location), parse_store_page url hA = some l1 →
        parse_store_page url hB = some l2 → l1.id = l2.id)
    ∧ (∀ (url html : Str), leadingDigits (pathOf url) = [] →
        parse_store_page url html = none) := by
  refine ⟨fun url html l h => parse_some_id h, ?_, ?_⟩
  · intro url hA hB l1 l2 ha hb
    rw [parse_some_id ha, parse_some_id hb]
  · intro url html hld
    have h := parse_isSome url html
    rw [hld] at h
    simp only [List.isEmpty_nil, Bool.not_true, Bool.and_false] at h
    cases hp : parse_store_page url html with
    | none => rfl
    | some l =>
      rw [hp] at h
      simp at h

/-- Claim C5 witness at concrete inputs: the record extracted at the id-7
URL carries the leading digit run of that URL path as its id, and a URL
with a non-digit path yields no record on a fully valid body. -/
theorem claim_C5_witness :
    sampleLoc.id = leadingDigits (pathOf (urlOf 7))
    ∧ parse_store_page badUrl sampleHtmlStr = none := by
  constructor
  · exact claim_C5.1 (urlOf 7) sampleHtmlStr sampleLoc (by decide)
  · exact claim_C5.2.2 badUrl sampleHtmlStr (by decide)

/-- Claim C6: the heading split satisfies the worked example, mapping the
heading of the sample page to its city and state, street address and zip
code parts, and for every normalized heading without the separator the
whole heading becomes the city and state part while the street address
and zip code are empty (the record fields add one more normalization,
which fixes a normalized heading). -/
theorem claim_C6 :
    headingFields (str "Los Angeles, CA - 123 Main St, 90001")
      = (str "Los Angeles, CA", str "123 Main St", str "90001")
    ∧ ∀ h : Str, normalize_whitespace h = h → containsStr sepStr h = false →
        headingFields h = (h, [], []) := by
  refine ⟨by decide, ?_⟩
  intro h hnorm hsep
  unfold headingFields
  rw [if_neg (by simp [hsep])]
  rfl

/-- Claim C6 witness at a concrete input: the separator-free heading of
the worked example keeps everything in the city and state part. -/
theorem claim_C6_witness :
    headingFields (str "123 Main St") = (str "123 Main St", [], []) :=
  claim_C6.2 (str "123 Main St") (by decide) (by decide)

/-- Claim C7: for every result mapping the emitted sequence is a
permutation of the mapping ordered ascending by the numeric value of the
id key, and on the worked example the insertion order 2, 10, 1 is emitted
as 1, 2, 10 — numeric, not lexicographic, order. -/
theorem claim_C7 :
    (∀ m : List (Str × Location),
        (sortedLocations m).Perm m ∧ List.Sorted byIdNum (sortedLocations m))
    ∧ sortedLocations exampleMap
        = [(str "1", mkSampleLoc "1"), (str "2", mkSampleLoc "2"),
           (str "10", mkSampleLoc "10")] := by
  refine ⟨fun m => ⟨List.perm_insertionSort byIdNum m,
    List.sorted_insertionSort byIdNum m⟩, by decide⟩

/-- Claim C8: in every scan run the result mapping starts empty, each
prefix stage of the mapping is a prefix of the next stage (entries are
only appended, never replaced or mutated in place), and the keys are
pairwise distinct at every stage. -/
theorem claim_C8 (o : Oracle) (t n : Nat) :
    scanFoundAt o t 0 = []
    ∧ scanFoundAt o t n <+: scanFoundAt o t (n + 1)
    ∧ ((scanFoundAt o t n).map Prod.fst).Nodup :=
  ⟨scanFoundAt_zero o t, scanFound_grows o t n, (scanFound_keys o t n).2⟩

/-- Claim C9 (corrected), counterexample to the original claim: with
transport errors everywhere and threshold 1, the scan stops at id 301,
which is probed but not followed by the inter-request delay — the break
of source line 124 precedes the sleep of line 126. -/
theorem claim_C9_counterexample :
    ((scrape_by_ids allErrOracle 301 1).probed.contains 301) = true
    ∧ ((scrape_by_ids allErrOracle 301 1).slept.contains 301) = false := by
  refine ⟨by decide, by decide⟩

/-- Claim C9 (amended): in every scan run the fixed delay follows every
probe attempt regardless of outcome, except the attempt on which the
early-stop break fires, which skips the delay; when the scan ends by
exhausting the id range, the delay does follow the final attempt. -/
theorem claim_C9 (o : Oracle) (maxId t : Nat) :
    (scrape_by_ids o maxId t).slept
      = if (scrape_by_ids o maxId t).stopped = true
        then (scrape_by_ids o maxId t).probed.dropLast
        else (scrape_by_ids o maxId t).probed := by
  unfold scrape_by_ids
  exact runScan_slept_eq o t 300 (List.range' 1 maxId) ⟨[], 0⟩

/-- Claim C10: the URL handed to the extractor is always built from the
loop counter, so every record produced in iteration i has the decimal
string of i as its id; the final URL of the response is never read, so
two oracles that agree on status and body produce identical runs; and
consequently the keys of the result mapping never collide. -/
theorem claim_C10 :
    (∀ (o : Oracle) (i : Nat) (l : Location), probeResult o i = some l →
        l.id = natDigits i)
    ∧ (∀ (o o2 : Oracle), (∀ i, obsOf (o i) = obsOf (o2 i)) →
        ∀ (t flr : Nat) (st : ScanState) (ids : List Nat),
          runScan o t flr st ids = runScan o2 t flr st ids)
    ∧ (∀ (o : Oracle) (t n : Nat), ((scanFoundAt o t n).map Prod.fst).Nodup) := by
  refine ⟨fun o i l h => probeResult_id h, ?_, fun o t n => (scanFound_keys o t n).2⟩
  intro o o2 h t flr st ids
  exact runScan_obs h t flr ids st

/-- Claim C10 witness at concrete inputs: the record produced at
iteration 7 has id 7, and two oracles differing only in the final URL of
their responses produce identical runs. -/
theorem claim_C10_witness :
    sampleLoc.id = natDigits 7
    ∧ runScan finalUrlOracleA 1 300 ⟨[], 0⟩ (List.range' 1 3)
        = runScan finalUrlOracleB 1 300 ⟨[], 0⟩ (List.range' 1 3) := by
  constructor
  · exact claim_C10.1 sampleOracle 7 sampleLoc (by decide)
  · exact claim_C10.2.1 finalUrlOracleA finalUrlOracleB (fun i => rfl) 1 300 ⟨[], 0⟩
      (List.range' 1 3)

end InnOut
